import Mathlib

/-!
Formal model of GoCryptoTracker's price-monitoring and valuation core
(`main.go` of CRYPTOCURRENCY-PORTFOLIO-TRACKER), as a shallow embedding:

* decimal values (Go `float64`) are modelled as exact rationals `ℚ`;
* the external HTTP fetch + JSON decode performed by `getCoinCapPrice`
  (main.go lines 148-158) is modelled as its outcome, a value of type
  `fetchResult`: either a transport/decode error or the decoded asset list;
* the per-call refetch in `handlePortfolioValue` is modelled by a stream
  `fetches : ℕ → fetchResult`, call number `k` observing `fetches k`;
* Go's map `cryptoAmounts` is modelled as an association list built in
  first-insertion order (`addHolding` / `groupHoldings`); Go randomises map
  iteration order, so this fixes one admissible order, and the order-
  independence results below show the observable answer does not depend on it.
-/

/-- One entry of the decoded CoinCap response (`coinCapAsset.Data`,
main.go lines 27-33): the price arrives as a string. -/
structure coinCapAssetEntry where
  id : String
  symbol : String
  priceUsd : String
deriving DecidableEq, Repr

/-- One monitored token's configuration (`tokenConfig`, main.go lines 35-39). -/
structure tokenConfig where
  name : String
  symbol : String
  threshold : ℚ
deriving DecidableEq, Repr

/-- A holdings row as read by `handlePortfolioValue` (main.go line 232 selects
only `symbol, amount` from the `portfolio` table; the other `Portfolio`
columns are not consumed by the valuation logic). -/
structure Portfolio where
  symbol : String
  amount : ℚ
deriving DecidableEq, Repr

/-- The error taxonomy of the price path: transport failure, malformed body,
bad numeric literal, or symbol absent from the snapshot
(main.go lines 150, 157, 164, 170). -/
inductive priceError where
  | fetchError
  | decodeError
  | parseError (s : String)
  | notFound (symbol : String)
deriving DecidableEq, Repr

/-- Outcome of the HTTP GET + JSON decode in `getCoinCapPrice`
(main.go lines 148-158): either an error or the decoded entry list. -/
abbrev fetchResult := Except priceError (List coinCapAssetEntry)

/-- Numeric value of a list of decimal digit characters, most significant
first (the usual base-10 accumulation). -/
def digitsVal (l : List Char) : ℕ :=
  l.foldl (fun acc c => 10 * acc + (c.toNat - 48)) 0

/-- Models Go `strconv.ParseFloat` (main.go line 162) on the plain decimal
fragment of its grammar: digits with an optional single decimal point
(exponent, hex, Inf/NaN forms of ParseFloat are not modelled; the API's
price strings are plain decimals). Returns the exact rational value, `none`
on any malformed input. -/
def parseUnsigned (l : List Char) : Option ℚ :=
  let intPart := l.takeWhile Char.isDigit
  let rest := l.dropWhile Char.isDigit
  match rest with
  | [] => if intPart.isEmpty then none else some (digitsVal intPart)
  | '.' :: frac =>
      if frac.all Char.isDigit && !(intPart.isEmpty && frac.isEmpty) then
        some ((digitsVal intPart : ℚ) + (digitsVal frac : ℚ) / (10 ^ frac.length))
      else none
  | _ => none

/-- Models `strconv.ParseFloat(s, 64)` including the optional leading sign. -/
def parsePrice (s : String) : Option ℚ :=
  match s.toList with
  | '+' :: rest => parseUnsigned rest
  | '-' :: rest => (parseUnsigned rest).map (fun q => -q)
  | l => parseUnsigned l

/-- The scan over the decoded data in `getCoinCapPrice` (main.go lines
160-170): return the parsed price of the first entry whose symbol equals the
requested one; a parse failure on that entry aborts with its error; no match
at all yields the not-found error. -/
def lookupPrice (data : List coinCapAssetEntry) (symbol : String) :
    Except priceError ℚ :=
  match data with
  | [] => .error (.notFound symbol)
  | a :: rest =>
    if a.symbol = symbol then
      match parsePrice a.priceUsd with
      | some q => .ok q
      | none => .error (.parseError a.priceUsd)
    else lookupPrice rest symbol

/-- `getCoinCapPrice` (main.go lines 147-171) given the outcome of its fetch:
propagate a transport/decode error, otherwise scan the decoded list. -/
def getCoinCapPrice (fetch : fetchResult) (symbol : String) :
    Except priceError ℚ :=
  match fetch with
  | .error e => .error e
  | .ok data => lookupPrice data symbol

/-- `cryptoAmounts[symbol] += amount` (main.go line 251) on the association
list representing the Go map: add to the existing entry for the symbol, or
append a new entry. -/
def addHolding (m : List (String × ℚ)) (s : String) (a : ℚ) :
    List (String × ℚ) :=
  match m with
  | [] => [(s, a)]
  | (s', a') :: rest =>
    if s' = s then (s', a' + a) :: rest else (s', a') :: addHolding rest s a

/-- The grouping loop of `handlePortfolioValue` (main.go lines 240-252):
fold all rows into the amounts map, summing duplicate symbols. -/
def groupHoldings (holdings : List Portfolio) : List (String × ℚ) :=
  holdings.foldl (fun m h => addHolding m h.symbol h.amount) []

/-- The valuation loop of `handlePortfolioValue` (main.go lines 255-263):
for the `k`-th distinct symbol call `getCoinCapPrice` (observing the `k`-th
fetch outcome), abort on the first error, otherwise accumulate
`price * amount`. -/
def valuateLoop (fetches : ℕ → fetchResult) :
    ℕ → ℚ → List (String × ℚ) → Except priceError ℚ
  | _, acc, [] => .ok acc
  | k, acc, (s, a) :: rest =>
    match getCoinCapPrice (fetches k) s with
    | .error e => .error e
    | .ok p => valuateLoop fetches (k + 1) (acc + p * a) rest

/-- Core of `handlePortfolioValue` (main.go lines 240-263): group the rows,
then run the valuation loop from an accumulator of 0. -/
def valuateCore (fetches : ℕ → fetchResult) (holdings : List Portfolio) :
    Except priceError ℚ :=
  valuateLoop fetches 0 0 (groupHoldings holdings)

/-- The observable response of the `/portfolio/value` endpoint (main.go lines
254-270): any price error is collapsed into the uniform 500 response
"Error fetching cryptocurrency price" (modelled as `.error ()`), success
returns the JSON-encoded total. -/
def handlePortfolioValue (fetches : ℕ → fetchResult)
    (holdings : List Portfolio) : Except Unit ℚ :=
  match valuateCore fetches holdings with
  | .error _ => .error ()
  | .ok v => .ok v

/-- Total quantity of a symbol across a holdings list (the quantity the
grouping loop accumulates for that symbol). -/
def totalQty (holdings : List Portfolio) (s : String) : ℚ :=
  ((holdings.filter (fun x => x.symbol = s)).map Portfolio.amount).sum

/-- Number of `getCoinCapPrice` calls a `handlePortfolioValue` request makes:
one per distinct symbol (the valuation loop body runs once per entry of the
grouped map). -/
def valuateFetchCount (holdings : List Portfolio) : ℕ :=
  (groupHoldings holdings).length

/-- One monitoring task's observable actions, in order: a fetch attempt, an
error log line, an alert emission (main.go lines 120-124, the `AlertEvent`
carrying asset name, current price and threshold), or a sleep of the given
number of seconds. -/
inductive MonitorEvent where
  | fetchAttempt
  | errorLogged
  | alert (name : String) (price threshold : ℚ)
  | sleep (seconds : ℕ)
deriving DecidableEq, Repr

/-- `retryDelay` (main.go line 24), the intended delay in seconds between
price checks of one token. -/
def retryDelay : ℕ := 30

/-- One iteration of `monitorToken`'s loop body (main.go lines 114-126),
given the outcome of this cycle's `getCoinCapPrice` call. On error the code
logs and executes `continue`, which jumps straight back to the top of the
loop: neither the threshold comparison nor the `time.Sleep` on line 125 runs.
On success it emits an alert exactly when `price > token.Threshold`, then
sleeps `retryDelay` seconds. -/
def monitorCycle (token : tokenConfig) (r : Except priceError ℚ) :
    List MonitorEvent :=
  MonitorEvent.fetchAttempt ::
    match r with
    | .error _ => [MonitorEvent.errorLogged]
    | .ok price =>
      (if token.threshold < price then
        [MonitorEvent.alert token.name price token.threshold]
      else []) ++ [MonitorEvent.sleep retryDelay]

/-- The event trace of the first `n` iterations of `monitorToken`'s loop,
cycle `i` observing fetch outcome `results i`. -/
def monitorTrace (token : tokenConfig) (results : ℕ → Except priceError ℚ) :
    ℕ → List MonitorEvent
  | 0 => []
  | n + 1 => monitorTrace token results n ++ monitorCycle token (results n)

/-- Modelled from the spec (§9 design note): the valuation loop of the
once-per-call variant, reusing one already-fetched catalog outcome for every
distinct symbol instead of refetching. -/
def valuateOnceLoop (fetch : fetchResult) :
    ℚ → List (String × ℚ) → Except priceError ℚ
  | acc, [] => .ok acc
  | acc, (s, a) :: rest =>
    match getCoinCapPrice fetch s with
    | .error e => .error e
    | .ok p => valuateOnceLoop fetch (acc + p * a) rest

/-- Modelled from the spec (§9 design note): the variant of the valuation
that "fetches the catalog once per valuate call and reuses it across
symbols". -/
def valuateOnce (fetch : fetchResult) (holdings : List Portfolio) :
    Except priceError ℚ :=
  valuateOnceLoop fetch 0 (groupHoldings holdings)

/-- Quantity recorded for symbol `s` in an amounts map: the sum of the
entries whose key is `s` (with distinct keys, the unique entry or 0). -/
def amountIn (m : List (String × ℚ)) (s : String) : ℚ :=
  ((m.filter (fun p => p.1 = s)).map Prod.snd).sum

example : parsePrice "50000" = some 50000 := by rfl
example : parsePrice "3.5" = some (7/2) := by
  have h : parsePrice "3.5" = some ((3 : ℚ) + 5 / 10 ^ 1) := rfl
  rw [h]; norm_num
example : parsePrice "abc" = none := by rfl
example : parsePrice "" = none := by rfl
example :
    getCoinCapPrice (.ok [⟨"bitcoin", "BTC", "50000"⟩]) "BTC" = .ok 50000 := by
  rfl
example :
    getCoinCapPrice (.ok [⟨"bitcoin", "BTC", "50000"⟩]) "ETH" =
      .error (.notFound "ETH") := by rfl

lemma amountIn_nil (s : String) : amountIn [] s = 0 := rfl

lemma amountIn_cons (p : String × ℚ) (m : List (String × ℚ)) (s : String) :
    amountIn (p :: m) s = (if p.1 = s then p.2 else 0) + amountIn m s := by
  by_cases h : p.1 = s <;> simp [amountIn, List.filter_cons, h]

lemma totalQty_nil (s : String) : totalQty [] s = 0 := rfl

lemma totalQty_cons (x : Portfolio) (h : List Portfolio) (s : String) :
    totalQty (x :: h) s = (if x.symbol = s then x.amount else 0) + totalQty h s := by
  by_cases hx : x.symbol = s <;> simp [totalQty, List.filter_cons, hx]

lemma addHolding_amountIn (s : String) (a : ℚ) :
    ∀ (m : List (String × ℚ)) (t : String),
      amountIn (addHolding m s a) t = amountIn m t + (if s = t then a else 0)
  | [], t => by
    by_cases h : s = t <;> simp [addHolding, amountIn_cons, amountIn_nil, h]
  | (s', a') :: rest, t => by
    by_cases hs : s' = s
    · subst hs
      by_cases ht : s' = t <;>
        simp [addHolding, amountIn_cons, ht] <;> ring
    · simp only [addHolding, if_neg hs, amountIn_cons,
        addHolding_amountIn s a rest t]
      ring

lemma addHolding_mem_keys (s : String) (a : ℚ) :
    ∀ (m : List (String × ℚ)) (t : String),
      t ∈ (addHolding m s a).map Prod.fst ↔ t ∈ m.map Prod.fst ∨ t = s
  | [], t => by simp [addHolding]
  | (s', a') :: rest, t => by
    by_cases hs : s' = s
    · subst hs
      simp [addHolding]
      tauto
    · simp [addHolding, if_neg hs, addHolding_mem_keys s a rest t]
      tauto

lemma addHolding_keys_nodup (s : String) (a : ℚ) :
    ∀ (m : List (String × ℚ)), (m.map Prod.fst).Nodup →
      ((addHolding m s a).map Prod.fst).Nodup
  | [], _ => by simp [addHolding]
  | (s', a') :: rest, hd => by
    rw [List.map_cons, List.nodup_cons] at hd
    by_cases hs : s' = s
    · subst hs
      simpa [addHolding, List.nodup_cons] using hd
    · rw [addHolding, if_neg hs, List.map_cons, List.nodup_cons]
      refine ⟨?_, addHolding_keys_nodup s a rest hd.2⟩
      rw [addHolding_mem_keys]
      push_neg
      exact ⟨hd.1, hs⟩

lemma foldl_group_amountIn :
    ∀ (h : List Portfolio) (m : List (String × ℚ)) (t : String),
      amountIn (h.foldl (fun m x => addHolding m x.symbol x.amount) m) t =
        amountIn m t + totalQty h t
  | [], m, t => by simp [totalQty_nil]
  | x :: h, m, t => by
    rw [List.foldl_cons, foldl_group_amountIn h _ t, addHolding_amountIn,
      totalQty_cons]
    by_cases hx : x.symbol = t <;> simp [hx] <;> ring

lemma foldl_group_mem_keys :
    ∀ (h : List Portfolio) (m : List (String × ℚ)) (t : String),
      t ∈ ((h.foldl (fun m x => addHolding m x.symbol x.amount) m).map Prod.fst) ↔
        t ∈ m.map Prod.fst ∨ t ∈ h.map Portfolio.symbol
  | [], m, t => by simp
  | x :: h, m, t => by
    rw [List.foldl_cons, foldl_group_mem_keys h _ t, addHolding_mem_keys]
    simp
    tauto

lemma foldl_group_keys_nodup :
    ∀ (h : List Portfolio) (m : List (String × ℚ)), (m.map Prod.fst).Nodup →
      (((h.foldl (fun m x => addHolding m x.symbol x.amount) m)).map Prod.fst).Nodup
  | [], _, hd => hd
  | x :: h, m, hd =>
    foldl_group_keys_nodup h _ (addHolding_keys_nodup _ _ _ hd)

lemma groupHoldings_amountIn (h : List Portfolio) (t : String) :
    amountIn (groupHoldings h) t = totalQty h t := by
  rw [groupHoldings, foldl_group_amountIn, amountIn_nil, zero_add]

lemma groupHoldings_mem_keys (h : List Portfolio) (t : String) :
    t ∈ (groupHoldings h).map Prod.fst ↔ t ∈ h.map Portfolio.symbol := by
  rw [groupHoldings, foldl_group_mem_keys]
  simp

lemma groupHoldings_keys_nodup (h : List Portfolio) :
    ((groupHoldings h).map Prod.fst).Nodup := by
  rw [groupHoldings]
  exact foldl_group_keys_nodup h [] (by simp)

lemma amountIn_of_not_mem :
    ∀ (m : List (String × ℚ)) (t : String), t ∉ m.map Prod.fst →
      amountIn m t = 0
  | [], _, _ => rfl
  | p :: m, t, hn => by
    rw [List.map_cons, List.mem_cons] at hn
    push_neg at hn
    rw [amountIn_cons, if_neg (Ne.symm hn.1), zero_add,
      amountIn_of_not_mem m t hn.2]

lemma amountIn_of_mem :
    ∀ (m : List (String × ℚ)), (m.map Prod.fst).Nodup →
      ∀ (t : String) (b : ℚ), (t, b) ∈ m → amountIn m t = b
  | [], _, t, b, hm => by simp at hm
  | p :: m, hd, t, b, hm => by
    rw [List.map_cons, List.nodup_cons] at hd
    rw [List.mem_cons] at hm
    rcases hm with hm | hm
    · subst hm
      rw [amountIn_cons, if_pos rfl, amountIn_of_not_mem m t hd.1, add_zero]
    · have ht : p.1 ≠ t := by
        intro he
        exact hd.1 (he ▸ List.mem_map_of_mem Prod.fst hm)
      rw [amountIn_cons, if_neg ht, zero_add, amountIn_of_mem m hd.2 t b hm]

lemma mem_of_keys_mem :
    ∀ (m : List (String × ℚ)), (m.map Prod.fst).Nodup →
      ∀ (t : String), t ∈ m.map Prod.fst → (t, amountIn m t) ∈ m
  | [], _, t, hm => by simp at hm
  | p :: m, hd, t, hm => by
    rw [List.map_cons, List.nodup_cons] at hd
    rw [List.map_cons, List.mem_cons] at hm
    rcases hm with hm | hm
    · subst hm
      rw [amountIn_cons, if_pos rfl, amountIn_of_not_mem m p.1 hd.1, add_zero]
      exact List.mem_cons_self _ _
    · have ht : p.1 ≠ t := by
        intro he
        exact hd.1 (he ▸ hm)
      rw [amountIn_cons, if_neg ht, zero_add]
      exact List.mem_cons_of_mem p (mem_of_keys_mem m hd.2 t hm)

lemma valuateLoop_ok (fetches : ℕ → fetchResult) (priceF : String → ℚ) :
    ∀ (l : List (String × ℚ)) (k : ℕ) (acc : ℚ),
      (∀ (j : ℕ), ∀ p ∈ l, getCoinCapPrice (fetches j) p.1 = .ok (priceF p.1)) →
      valuateLoop fetches k acc l =
        .ok (acc + (l.map (fun p => priceF p.1 * p.2)).sum)
  | [], k, acc, _ => by simp [valuateLoop]
  | (s, a) :: rest, k, acc, hall => by
    have h1 : getCoinCapPrice (fetches k) s = .ok (priceF s) :=
      hall k (s, a) (List.mem_cons_self _ _)
    simp only [valuateLoop, h1]
    rw [valuateLoop_ok fetches priceF rest (k + 1) (acc + priceF s * a)
        (fun j p hp => hall j p (List.mem_cons_of_mem _ hp))]
    simp
    ring

lemma valuateLoop_error (fetches : ℕ → fetchResult) (s : String) :
    ∀ (l : List (String × ℚ)) (k : ℕ) (acc : ℚ) (a : ℚ),
      (s, a) ∈ l →
      (∀ (j : ℕ), (getCoinCapPrice (fetches j) s).isOk = false) →
      (valuateLoop fetches k acc l).isOk = false
  | [], _, _, _, hm, _ => by simp at hm
  | (s', a') :: rest, k, acc, a, hm, hfail => by
    rw [valuateLoop]
    cases hg : getCoinCapPrice (fetches k) s' with
    | error e => rfl
    | ok p =>
      rw [List.mem_cons] at hm
      rcases hm with hm | hm
      · exfalso
        rw [Prod.mk.injEq] at hm
        rw [hm.1] at hfail
        have := hfail k
        rw [hg] at this
        simp [Except.isOk, Except.toBool] at this
      · exact valuateLoop_error fetches s rest (k + 1) (acc + p * a') a hm hfail

lemma valuateLoop_const (fetches : ℕ → fetchResult)
    (hconst : ∀ i, fetches i = fetches 0) :
    ∀ (l : List (String × ℚ)) (k : ℕ) (acc : ℚ),
      valuateLoop fetches k acc l = valuateOnceLoop (fetches 0) acc l
  | [], _, _ => rfl
  | (s, a) :: rest, k, acc => by
    rw [valuateLoop, valuateOnceLoop, hconst k]
    cases getCoinCapPrice (fetches 0) s with
    | error e => rfl
    | ok p => exact valuateLoop_const fetches hconst rest (k + 1) (acc + p * a)

lemma groupHoldings_pairs_nodup (h : List Portfolio) :
    (groupHoldings h).Nodup :=
  (groupHoldings_keys_nodup h).of_map

lemma groupHoldings_perm (h₁ h₂ : List Portfolio)
    (hmem : ∀ s, s ∈ h₁.map Portfolio.symbol ↔ s ∈ h₂.map Portfolio.symbol)
    (htot : ∀ s, totalQty h₁ s = totalQty h₂ s) :
    (groupHoldings h₁).Perm (groupHoldings h₂) := by
  rw [List.perm_ext_iff_of_nodup (groupHoldings_pairs_nodup h₁)
    (groupHoldings_pairs_nodup h₂)]
  rintro ⟨t, b⟩
  constructor
  · intro hm
    have hk : t ∈ (groupHoldings h₂).map Prod.fst := by
      rw [groupHoldings_mem_keys, ← hmem, ← groupHoldings_mem_keys]
      exact List.mem_map_of_mem Prod.fst hm
    have hb : b = amountIn (groupHoldings h₂) t := by
      rw [groupHoldings_amountIn, ← htot, ← groupHoldings_amountIn]
      exact (amountIn_of_mem _ (groupHoldings_keys_nodup h₁) t b hm).symm
    rw [hb]
    exact mem_of_keys_mem _ (groupHoldings_keys_nodup h₂) t hk
  · intro hm
    have hk : t ∈ (groupHoldings h₁).map Prod.fst := by
      rw [groupHoldings_mem_keys, hmem, ← groupHoldings_mem_keys]
      exact List.mem_map_of_mem Prod.fst hm
    have hb : b = amountIn (groupHoldings h₁) t := by
      rw [groupHoldings_amountIn, htot, ← groupHoldings_amountIn]
      exact (amountIn_of_mem _ (groupHoldings_keys_nodup h₂) t b hm).symm
    rw [hb]
    exact mem_of_keys_mem _ (groupHoldings_keys_nodup h₁) t hk

lemma groupHoldings_map_sum (h : List Portfolio) (F : String → ℚ) :
    (((groupHoldings h).map (fun p => F p.1 * p.2)).sum) =
      ∑ s in (h.map Portfolio.symbol).toFinset, F s * totalQty h s := by
  have hcong : (groupHoldings h).map (fun p => F p.1 * p.2) =
      (groupHoldings h).map (fun p => F p.1 * totalQty h p.1) := by
    refine List.map_congr_left (fun p hp => ?_)
    rw [← groupHoldings_amountIn,
      amountIn_of_mem _ (groupHoldings_keys_nodup h) p.1 p.2 hp]
  have hfin : ((groupHoldings h).map Prod.fst).toFinset =
      (h.map Portfolio.symbol).toFinset := by
    apply Finset.ext
    intro s
    rw [List.mem_toFinset, List.mem_toFinset, groupHoldings_mem_keys]
  rw [hcong, ← hfin,
    List.sum_toFinset (fun s => F s * totalQty h s) (groupHoldings_keys_nodup h)]
  rw [List.map_map]
  rfl

lemma handlePortfolioValue_of_ok (fetches : ℕ → fetchResult)
    (holdings : List Portfolio) (v : ℚ) (hv : valuateCore fetches holdings = .ok v) :
    handlePortfolioValue fetches holdings = .ok v := by
  rw [handlePortfolioValue, hv]

lemma handlePortfolioValue_of_error (fetches : ℕ → fetchResult)
    (holdings : List Portfolio) (hv : (valuateCore fetches holdings).isOk = false) :
    handlePortfolioValue fetches holdings = .error () := by
  rw [handlePortfolioValue]
  cases hc : valuateCore fetches holdings with
  | error e => rfl
  | ok v => rw [hc] at hv; simp [Except.isOk, Except.toBool] at hv

lemma lookupPrice_not_found :
    ∀ (data : List coinCapAssetEntry) (s : String),
      (∀ r ∈ data, r.symbol ≠ s) → lookupPrice data s = .error (.notFound s)
  | [], _, _ => rfl
  | a :: rest, s, habs => by
    rw [lookupPrice, if_neg (habs a (List.mem_cons_self _ _))]
    exact lookupPrice_not_found rest s
      (fun r hr => habs r (List.mem_cons_of_mem _ hr))

lemma lookupPrice_first_match :
    ∀ (pre : List coinCapAssetEntry) (r : coinCapAssetEntry)
      (post : List coinCapAssetEntry) (s : String),
      (∀ x ∈ pre, x.symbol ≠ s) → r.symbol = s →
      lookupPrice (pre ++ r :: post) s =
        match parsePrice r.priceUsd with
        | some q => .ok q
        | none => .error (.parseError r.priceUsd)
  | [], r, post, s, _, hr => by
    rw [List.nil_append, lookupPrice, if_pos hr]
  | x :: pre, r, post, s, hpre, hr => by
    rw [List.cons_append, lookupPrice, if_neg (hpre x (List.mem_cons_self _ _))]
    exact lookupPrice_first_match pre r post s
      (fun y hy => hpre y (List.mem_cons_of_mem _ hy)) hr

/-- C4: breach detection in `monitorToken` is a strict greater-than
comparison: in a cycle whose fetch succeeds with `price`, the alert event is
emitted if and only if `price` is strictly greater than the configured
threshold (so a price exactly equal to the threshold emits no alert), and any
alert emitted in such a cycle carries exactly the token's name, the current
price and the threshold. -/
theorem C4_breach_strict (t : tokenConfig) (price : ℚ) :
    (MonitorEvent.alert t.name price t.threshold ∈ monitorCycle t (.ok price) ↔
      t.threshold < price) ∧
    (∀ nm pr th, MonitorEvent.alert nm pr th ∈ monitorCycle t (.ok price) →
      nm = t.name ∧ pr = price ∧ th = t.threshold) := by
  constructor
  · by_cases hlt : t.threshold < price <;> simp [monitorCycle, hlt]
  · intro nm pr th hm
    by_cases hlt : t.threshold < price <;> simp [monitorCycle, hlt] at hm
    exact ⟨hm.1, hm.2.1, hm.2.2⟩

/-- C5: a symbol matched by no record of a successfully fetched snapshot
makes `getCoinCapPrice` fail with the not-found error — it never succeeds,
in particular never with the value zero. -/
theorem C5_absent_is_not_found (data : List coinCapAssetEntry) (s : String)
    (habs : ∀ r ∈ data, r.symbol ≠ s) :
    getCoinCapPrice (.ok data) s = .error (.notFound s) ∧
      ∀ q : ℚ, getCoinCapPrice (.ok data) s ≠ .ok q := by
  have h : getCoinCapPrice (.ok data) s = .error (.notFound s) :=
    lookupPrice_not_found data s habs
  exact ⟨h, fun q hq => by rw [h] at hq; exact Except.noConfusion hq⟩

theorem C5_absent_is_not_found_witness :
    getCoinCapPrice (.ok [⟨"ethereum", "ETH", "3000"⟩]) "BTC" =
      .error (.notFound "BTC") :=
  (C5_absent_is_not_found [⟨"ethereum", "ETH", "3000"⟩] "BTC" (by decide)).1

/-- C7: when the record selected for the requested symbol (the first one whose
symbol matches) carries an unparsable price string, the whole lookup aborts
with a parse error — the bad entry is not skipped, and no price is returned,
whatever records follow. -/
theorem C7_parse_failure_aborts (pre : List coinCapAssetEntry)
    (r : coinCapAssetEntry) (post : List coinCapAssetEntry) (s : String)
    (hpre : ∀ x ∈ pre, x.symbol ≠ s) (hr : r.symbol = s)
    (hbad : parsePrice r.priceUsd = none) :
    getCoinCapPrice (.ok (pre ++ r :: post)) s =
      .error (.parseError r.priceUsd) ∧
      ∀ q : ℚ, getCoinCapPrice (.ok (pre ++ r :: post)) s ≠ .ok q := by
  have h : getCoinCapPrice (.ok (pre ++ r :: post)) s =
      .error (.parseError r.priceUsd) := by
    have := lookupPrice_first_match pre r post s hpre hr
    rw [hbad] at this
    exact this
  exact ⟨h, fun q hq => by rw [h] at hq; exact Except.noConfusion hq⟩

theorem C7_parse_failure_aborts_witness :
    getCoinCapPrice
        (.ok [⟨"bitcoin", "BTC", "abc"⟩, ⟨"bitcoin", "BTC", "50000"⟩]) "BTC" =
      .error (.parseError "abc") :=
  (C7_parse_failure_aborts [] ⟨"bitcoin", "BTC", "abc"⟩
    [⟨"bitcoin", "BTC", "50000"⟩] "BTC" (by simp) rfl rfl).1

/-- C9 (implicit): symbol lookup matches by case-sensitive exact string
equality and is decided entirely by the first record of the snapshot whose
symbol equals the requested one: whatever records follow that first match
(later duplicates included), the result is the parse of that record's price
string. -/
theorem C9_first_exact_match (pre : List coinCapAssetEntry)
    (r : coinCapAssetEntry) (post : List coinCapAssetEntry) (s : String)
    (hpre : ∀ x ∈ pre, x.symbol ≠ s) (hr : r.symbol = s) :
    getCoinCapPrice (.ok (pre ++ r :: post)) s =
      match parsePrice r.priceUsd with
      | some q => .ok q
      | none => .error (.parseError r.priceUsd) :=
  lookupPrice_first_match pre r post s hpre hr

theorem C9_first_exact_match_witness :
    getCoinCapPrice
        (.ok [⟨"a", "btc", "1"⟩, ⟨"b", "BTC", "2"⟩, ⟨"c", "BTC", "3"⟩])
        "BTC" = .ok 2 :=
  (C9_first_exact_match [⟨"a", "btc", "1"⟩] ⟨"b", "BTC", "2"⟩
    [⟨"c", "BTC", "3"⟩] "BTC" (by decide) rfl).trans rfl

/-- C10 (implicit): valuating an empty holdings list always succeeds with
total 0, whatever every fetch would return (so an empty portfolio can never
fail through the price source), and it performs zero price fetches. -/
theorem C10_empty_portfolio :
    (∀ fetches : ℕ → fetchResult, valuateCore fetches [] = .ok 0) ∧
    (∀ fetches : ℕ → fetchResult, handlePortfolioValue fetches [] = .ok 0) ∧
    valuateFetchCount [] = 0 :=
  ⟨fun _ => rfl, fun _ => rfl, rfl⟩

/-- C2: if some symbol occurring in the holdings fails to resolve on every
fetch the valuation could observe, the whole valuation aborts with an error
and the endpoint answers the uniform error response — no partial sum is
returned; the model is a pure function of the holdings and the fetch
outcomes, so retrying the same request against the same failing source gives
the same failure again. -/
theorem C2_lookup_failure_aborts (fetches : ℕ → fetchResult)
    (holdings : List Portfolio) (s : String)
    (hs : s ∈ holdings.map Portfolio.symbol)
    (hfail : ∀ k, (getCoinCapPrice (fetches k) s).isOk = false) :
    (valuateCore fetches holdings).isOk = false ∧
      handlePortfolioValue fetches holdings = .error () := by
  have hk : s ∈ (groupHoldings holdings).map Prod.fst :=
    (groupHoldings_mem_keys holdings s).mpr hs
  have hpair : (s, amountIn (groupHoldings holdings) s) ∈ groupHoldings holdings :=
    mem_of_keys_mem _ (groupHoldings_keys_nodup holdings) s hk
  have herr : (valuateCore fetches holdings).isOk = false :=
    valuateLoop_error fetches s (groupHoldings holdings) 0 0 _ hpair hfail
  exact ⟨herr, handlePortfolioValue_of_error fetches holdings herr⟩

theorem C2_lookup_failure_aborts_witness :
    (valuateCore (fun _ => .ok []) [⟨"BTC", 1⟩]).isOk = false ∧
      handlePortfolioValue (fun _ => .ok []) [⟨"BTC", 1⟩] = .error () :=
  C2_lookup_failure_aborts (fun _ => .ok []) [⟨"BTC", 1⟩] "BTC"
    (by simp) (fun _ => rfl)

/-- C8: under the hypothesis that every fetch performed during one valuation
returns the same outcome, the observed per-symbol-refetch implementation
returns exactly the same result (same value, same error) as the variant that
fetches the catalog once per call and reuses that single snapshot for every
distinct symbol. -/
theorem C8_single_fetch_refines (fetches : ℕ → fetchResult)
    (holdings : List Portfolio) (hconst : ∀ i, fetches i = fetches 0) :
    valuateCore fetches holdings = valuateOnce (fetches 0) holdings := by
  rw [valuateCore, valuateOnce, valuateLoop_const fetches hconst]

theorem C8_single_fetch_refines_witness :
    valuateCore (fun _ => .ok [⟨"bitcoin", "BTC", "50000"⟩]) [⟨"BTC", 2⟩] =
      valuateOnce (.ok [⟨"bitcoin", "BTC", "50000"⟩]) [⟨"BTC", 2⟩] :=
  C8_single_fetch_refines (fun _ => .ok [⟨"bitcoin", "BTC", "50000"⟩])
    [⟨"BTC", 2⟩] (fun _ => rfl)

/-- C1: the claim says a monitor whose fetch fails waits the fixed 30-unit
interval before the next attempt. The code does not: on error `monitorToken`
executes `continue` before reaching `time.Sleep`, so two consecutive failing
cycles produce two fetch attempts with no sleep at all in between (an
immediate fast-retry), whereas a successful cycle does end with the 30-unit
sleep. This evaluates the model at that failing input. -/
theorem C1_error_cycle_skips_sleep :
    monitorTrace ⟨"Bitcoin", "BTC", 100⟩ (fun _ => .error .fetchError) 2 =
      [MonitorEvent.fetchAttempt, MonitorEvent.errorLogged,
        MonitorEvent.fetchAttempt, MonitorEvent.errorLogged] ∧
    MonitorEvent.sleep retryDelay ∉
      monitorTrace ⟨"Bitcoin", "BTC", 100⟩ (fun _ => .error .fetchError) 2 ∧
    MonitorEvent.sleep retryDelay ∈
      monitorCycle ⟨"Bitcoin", "BTC", 100⟩ (.ok 50) := by
  refine ⟨rfl, ?_, ?_⟩
  · decide
  · decide

/-- C6: when every distinct symbol of the holdings resolves (every fetch the
valuation can observe returns `priceF s` for each such symbol `s`), the
valuation succeeds with exactly the sum, over the distinct symbols, of the
symbol's price times its total quantity — a sum of products. -/
theorem C6_sum_of_products (fetches : ℕ → fetchResult)
    (holdings : List Portfolio) (priceF : String → ℚ)
    (hall : ∀ (k : ℕ), ∀ p ∈ groupHoldings holdings,
      getCoinCapPrice (fetches k) p.1 = .ok (priceF p.1)) :
    valuateCore fetches holdings =
      .ok (∑ s in (holdings.map Portfolio.symbol).toFinset,
        priceF s * totalQty holdings s) := by
  rw [valuateCore, valuateLoop_ok fetches priceF _ 0 0 hall, zero_add,
    groupHoldings_map_sum]

theorem C6_sum_of_products_witness :
    valuateCore
        (fun _ => .ok [⟨"bitcoin", "BTC", "50000"⟩, ⟨"ethereum", "ETH", "3000"⟩])
        [⟨"BTC", 1/2⟩, ⟨"ETH", 2⟩] = .ok 31000 := by
  have h := C6_sum_of_products
    (fun _ => .ok [⟨"bitcoin", "BTC", "50000"⟩, ⟨"ethereum", "ETH", "3000"⟩])
    [⟨"BTC", 1/2⟩, ⟨"ETH", 2⟩]
    (fun s => if s = "BTC" then 50000 else 3000) ?hall
  case hall =>
    intro k p hp
    have hg : groupHoldings [⟨"BTC", (1 : ℚ)/2⟩, ⟨"ETH", 2⟩] =
        [("BTC", (1 : ℚ)/2), ("ETH", 2)] := rfl
    rw [hg] at hp
    simp only [List.mem_cons, List.not_mem_nil, or_false] at hp
    rcases hp with rfl | rfl
    · rfl
    · rfl
  rw [h]
  have hs : (∑ s in (([⟨"BTC", (1 : ℚ)/2⟩, ⟨"ETH", 2⟩] :
        List Portfolio).map Portfolio.symbol).toFinset,
      (if s = "BTC" then (50000 : ℚ) else 3000) *
        totalQty [⟨"BTC", (1 : ℚ)/2⟩, ⟨"ETH", 2⟩] s) = 31000 := by
    simp [totalQty, List.filter_cons, Finset.sum_insert]
    norm_num
  rw [hs]

/-- C3: valuation groups holdings by symbol additively and order-
independently: two holdings lists that mention the same set of symbols with
the same per-symbol total quantity (duplicate rows summed, rows in any
order) produce the same `/portfolio/value` response against the same price
snapshot. -/
theorem C3_grouping_order_independent (fetch : fetchResult)
    (h₁ h₂ : List Portfolio)
    (hmem : ∀ s, s ∈ h₁.map Portfolio.symbol ↔ s ∈ h₂.map Portfolio.symbol)
    (htot : ∀ s, totalQty h₁ s = totalQty h₂ s) :
    handlePortfolioValue (fun _ => fetch) h₁ =
      handlePortfolioValue (fun _ => fetch) h₂ := by
  have hperm := groupHoldings_perm h₁ h₂ hmem htot
  by_cases hex : ∃ p ∈ groupHoldings h₁, (getCoinCapPrice fetch p.1).isOk = false
  · obtain ⟨⟨s, a⟩, hp, hfl⟩ := hex
    have h1 := valuateLoop_error (fun _ => fetch) s (groupHoldings h₁) 0 0 a
      hp (fun _ => hfl)
    have h2 := valuateLoop_error (fun _ => fetch) s (groupHoldings h₂) 0 0 a
      (hperm.subset hp) (fun _ => hfl)
    rw [handlePortfolioValue_of_error _ _ h1, handlePortfolioValue_of_error _ _ h2]
  · push_neg at hex
    have hall₁ : ∀ (j : ℕ), ∀ p ∈ groupHoldings h₁,
        getCoinCapPrice ((fun _ => fetch) j) p.1 =
          .ok ((fun t => ((getCoinCapPrice fetch t).toOption.getD 0)) p.1) := by
      intro j p hp
      cases hg : getCoinCapPrice fetch p.1 with
      | error e =>
        exact absurd (by rw [hg]; rfl) (hex p hp)
      | ok q =>
        show Except.ok q = Except.ok ((getCoinCapPrice fetch p.1).toOption.getD 0)
        rw [hg]
        rfl
    have hall₂ : ∀ (j : ℕ), ∀ p ∈ groupHoldings h₂,
        getCoinCapPrice ((fun _ => fetch) j) p.1 =
          .ok ((fun t => ((getCoinCapPrice fetch t).toOption.getD 0)) p.1) := by
      intro j p hp
      exact hall₁ j p (hperm.symm.subset hp)
    have e1 := valuateLoop_ok (fun _ => fetch)
      (fun t => ((getCoinCapPrice fetch t).toOption.getD 0))
      (groupHoldings h₁) 0 0 hall₁
    have e2 := valuateLoop_ok (fun _ => fetch)
      (fun t => ((getCoinCapPrice fetch t).toOption.getD 0))
      (groupHoldings h₂) 0 0 hall₂
    rw [handlePortfolioValue_of_ok _ _ _ e1, handlePortfolioValue_of_ok _ _ _ e2,
      (hperm.map (fun p =>
        ((getCoinCapPrice fetch p.1).toOption.getD 0) * p.2)).sum_eq]

theorem C3_grouping_order_independent_witness :
    handlePortfolioValue
        (fun _ => .ok [⟨"bitcoin", "BTC", "50000"⟩, ⟨"ethereum", "ETH", "3000"⟩])
        [⟨"BTC", 1⟩, ⟨"BTC", 2⟩, ⟨"ETH", 5⟩] =
      handlePortfolioValue
        (fun _ => .ok [⟨"bitcoin", "BTC", "50000"⟩, ⟨"ethereum", "ETH", "3000"⟩])
        [⟨"BTC", 3⟩, ⟨"ETH", 5⟩] := by
  apply C3_grouping_order_independent
  · intro s
    simp
  · intro s
    by_cases h1 : "BTC" = s <;> by_cases h2 : "ETH" = s <;>
      simp [totalQty, List.filter_cons, h1, h2] <;> norm_num
